import Mathlib

/-!
Verification of the detection-to-redaction interval pipeline of the
audio-analysis repository.

The Python sources are shallowly embedded: seconds become rationals (ℚ),
Python strings become Lean strings, pandas dataframes become a column list
plus association-list rows, and the external engine invocation is reified
as an `EditOutcome` value recording whether the run errored, was a reported
no-op, or invoked the engine with a concrete filter expression.
-/

namespace AudioAnalysis

/-- Python `int(x)` truncates toward zero.  Used for `int(seconds)` in
`format_time` (src/analyze_audio.py line 83). -/
def py_int (s : ℚ) : ℤ :=
  if 0 ≤ s then ⌊s⌋ else -⌊-s⌋

/-- Python zero-padded width-two integer formatting: pad a nonnegative
integer below 10 with a leading zero (negative integers render with their
sign, unpadded beyond width 2). -/
def pad2 (n : ℤ) : String :=
  if 0 ≤ n ∧ n < 10 then "0" ++ toString n else toString n

/-- Model of `format_time` from src/analyze_audio.py lines 81-87:
truncate the seconds to an integer and render `HH:MM:SS` with floor
division/modulo (Python `//` and `%` are `Int.fdiv`/`Int.fmod`). -/
def format_time (seconds : ℚ) : String :=
  let total_seconds : ℤ := py_int seconds
  let hours : ℤ := Int.fdiv total_seconds 3600
  let minutes : ℤ := Int.fdiv (Int.fmod total_seconds 3600) 60
  let secs : ℤ := Int.fmod total_seconds 60
  pad2 hours ++ ":" ++ pad2 minutes ++ ":" ++ pad2 secs

/-- The fixed chunk length, `30 * 60` seconds
(src/analyze_audio.py line 172). -/
def CHUNK_DURATION : ℚ := 30 * 60

/-- The chunk count `int(total_duration // CHUNK_DURATION) + 1`
(src/analyze_audio.py line 175); durations are nonnegative. -/
def total_chunks (D : ℚ) : ℕ :=
  (⌊D / CHUNK_DURATION⌋).toNat + 1

/-- The chunk start offset `i * CHUNK_DURATION` (src/analyze_audio.py
line 182). -/
def chunk_offset (i : ℕ) : ℚ := i * CHUNK_DURATION

/-- A word-level timestamped token as returned by the transcription engine
for one chunk (chunk-local times). -/
structure LocalWord where
  start : ℚ
  end_ : ℚ
deriving DecidableEq

/-- Rebasing of one chunk-local word onto the global timeline
(src/analyze_audio.py lines 209-210). -/
def rebase (i : ℕ) (w : LocalWord) : LocalWord :=
  { start := w.start + chunk_offset i, end_ := w.end_ + chunk_offset i }

/-- The chunk loop of `analyze` (src/analyze_audio.py lines 181-211):
iterate chunk indices `0 .. total_chunks D - 1`, transcribe each chunk
(black-box `transcribe`), and accumulate every word rebased by the chunk
offset into `all_words`. -/
def process_chunks (D : ℚ) (transcribe : ℕ → List LocalWord) : List LocalWord :=
  (List.range (total_chunks D)).flatMap (fun i => (transcribe i).map (rebase i))

/- ## Word matching and context extraction (src/analyze_audio.py 215-239) -/

/-- The character class of Python `str.strip()` with no argument,
restricted to ASCII whitespace. -/
def pyWhitespace (c : Char) : Bool :=
  c == ' ' || c == '\t' || c == '\n' || c == '\r' || c == Char.ofNat 11 || c == Char.ofNat 12

/-- Membership in the Python `string.punctuation` character set
(the ASCII punctuation ranges 33-47, 58-64, 91-96, 123-126). -/
def pyPunct (c : Char) : Bool :=
  (33 ≤ c.toNat && c.toNat ≤ 47) || (58 ≤ c.toNat && c.toNat ≤ 64) ||
    (91 ≤ c.toNat && c.toNat ≤ 96) || (123 ≤ c.toNat && c.toNat ≤ 126)

/-- Python `s.strip(chars)`: drop characters of the class from both ends. -/
def stripEdges (p : Char → Bool) (s : List Char) : List Char :=
  ((s.dropWhile p).reverse.dropWhile p).reverse

/-- Token normalization, `word.strip().lower().strip(string.punctuation)`
(src/analyze_audio.py line 225); lower-casing modelled for ASCII. -/
def normalizeWord (w : String) : String :=
  String.mk (stripEdges pyPunct ((stripEdges pyWhitespace w.toList).map Char.toLower))

/-- The banned-word set: every nonblank line of the word-list file,
stripped and lower-cased (src/analyze_audio.py line 161). -/
def load_banned_words (lines : List String) : List String :=
  (((lines.map (fun l => String.mk (stripEdges pyWhitespace l.toList))).filter
      (fun l => l ≠ "")).map (fun l => String.mk (l.toList.map Char.toLower)))

/-- One transcribed token with its global-timeline span. -/
structure Token where
  word : String
  start : ℚ
  end_ : ℚ
deriving DecidableEq

/-- One row of the word-schema review file (src/analyze_audio.py 233-239). -/
structure FoundWord where
  start : ℚ
  hms_timestamp : String
  end_ : ℚ
  word : String
  context : String
deriving DecidableEq

/-- The context slice `all_words[max(0, i-5) : min(len(all_words), i+6)]`
(src/analyze_audio.py lines 228-230); `i - 5` in ℕ is `max 0 (i - 5)`. -/
def context_window (all_words : List Token) (i : ℕ) : List Token :=
  (all_words.drop (i - 5)).take (min all_words.length (i + 6) - (i - 5))

/-- The space-joined context text of the window around index `i`
(src/analyze_audio.py line 231). -/
def context_of (all_words : List Token) (i : ℕ) : String :=
  String.intercalate " " ((context_window all_words i).map Token.word)

/-- The record appended for a match at index `i`
(src/analyze_audio.py lines 233-239): original word text, original
start/end, derived `hms_timestamp` and context. -/
def mk_found (all_words : List Token) (i : ℕ) (t : Token) : FoundWord :=
  { start := t.start
    hms_timestamp := format_time t.start
    end_ := t.end_
    word := t.word
    context := context_of all_words i }

/-- The match loop of `analyze` (src/analyze_audio.py lines 221-239):
enumerate tokens, keep exactly those whose normalized text is a member of
the banned-word set. -/
def find_matches (banned : List String) (all_words : List Token) : List FoundWord :=
  all_words.enum.filterMap (fun p =>
    if normalizeWord p.2.word ∈ banned then some (mk_found all_words p.1 p.2) else none)

/- ## Visual detection merging (src/audio_scripts/analyze_video.py 118-150) -/

/-- A merged visual redaction range `(start, end, labels)`
(src/audio_scripts/analyze_video.py lines 123-138); the Python label set
becomes a `Finset String`. -/
structure VRange where
  start : ℚ
  end_ : ℚ
  labels : Finset String
deriving DecidableEq

/-- The clustering loop over the sorted tail of detections
(src/audio_scripts/analyze_video.py lines 127-138), carrying the running
`(start, end, labels)` state: a detection within `gap` of the running end
extends the range and unions its label; otherwise the range is closed and
a fresh one is started. -/
def mergeLoop (gap : ℚ) (s e : ℚ) (ls : Finset String) : List (ℚ × String) → List VRange
  | [] => [⟨s, e, ls⟩]
  | d :: rest =>
    if d.1 - e ≤ gap then mergeLoop gap s d.1 (insert d.2 ls) rest
    else ⟨s, e, ls⟩ :: mergeLoop gap d.1 d.1 {d.2} rest

/-- Range construction from the (already sorted) accepted detections
(src/audio_scripts/analyze_video.py lines 118-138): the first detection
seeds the state, the gap is `frame_interval * 1.5` (line 130). -/
def analyze_video_ranges (frame_interval : ℚ) : List (ℚ × String) → List VRange
  | [] => []
  | d :: rest => mergeLoop (frame_interval * 1.5) d.1 d.1 {d.2} rest

/-- The written CSV rows (src/audio_scripts/analyze_video.py lines
145-150): symmetric 0.5 s safety buffer clipped to `[0, duration]`, labels
sorted and bar-joined. -/
def bufferRanges (duration : ℚ) (rs : List VRange) : List (ℚ × ℚ × String) :=
  rs.map (fun r =>
    (max 0 (r.start - 0.5), min duration (r.end_ + 0.5),
      String.intercalate "|" (r.labels.sort (fun a b => a ≤ b))))

/-- Boolean sortedness of a detection list relative to a lower bound `e`
on the first timestamp (the merger is run on a list sorted by timestamp,
line 121 of src/audio_scripts/analyze_video.py). -/
def sortedFrom (e : ℚ) : List (ℚ × String) → Bool
  | [] => true
  | d :: rest => decide (e ≤ d.1) && sortedFrom d.1 rest

/-- Sortedness of a whole detection list by timestamp. -/
def detsSorted : List (ℚ × String) → Bool
  | [] => true
  | d :: rest => sortedFrom d.1 rest

/- ## Redaction command synthesis (src/edit_audio.py, src/audio_scripts/edit_video.py) -/

/-- A review CSV as read into a dataframe: its column names and its data
rows, each row an association list from column name to cell text. -/
structure ReviewCsv where
  columns : List String
  rows : List (List (String × String))
deriving DecidableEq

/-- Cell lookup by column name on one dataframe row. -/
def getCol (row : List (String × String)) (c : String) : String :=
  ((row.find? (fun p => p.1 == c)).map Prod.snd).getD ""

/-- The observable outcome of one synthesizer run: a hard error (no edit
attempted), a reported no-op (no engine invocation, no output file
created), or an invocation of the external engine with the given filter
expression (the only constructor that produces an output file). -/
inductive EditOutcome where
  | error (msg : String)
  | noop
  | invoked (filter : String)
deriving DecidableEq

/-- A single-quote character, used to delimit ffmpeg `enable` clauses. -/
def sq : String := (Char.ofNat 39).toString

/-- Schema detection of `edit_media_with_ffmpeg` (src/edit_audio.py lines
69-77): first a subset check for the start/end column pair on the
dataframe columns, then one for the start_seconds/end_seconds pair, else
rejection. -/
def schemaOf (cols : List String) : Option (String × String) :=
  if "start" ∈ cols ∧ "end" ∈ cols then some ("start", "end")
  else if "start_seconds" ∈ cols ∧ "end_seconds" ∈ cols then
    some ("start_seconds", "end_seconds")
  else none

/-- One element of the audio filter chain: a volume filter set to 0 and
gated by a single quoted between-predicate on the two rendered cell texts
(src/edit_audio.py line 93). -/
def volume_gate (s e : String) : String :=
  "volume=enable=" ++ sq ++ "between(t," ++ s ++ "," ++ e ++ ")" ++ sq ++ ":volume=0"

/-- The comma-joined chain of per-range volume filters
(src/edit_audio.py lines 89-95). -/
def audio_filter_string (pairs : List (String × String)) : String :=
  String.intercalate "," (pairs.map (fun p => volume_gate p.1 p.2))

/-- Model of `edit_media_with_ffmpeg` (src/edit_audio.py lines 56-139) up
to the engine invocation: classify the review file schema (lines 69-77,
rejecting unrecognized columns), report a no-op on an empty dataframe
(lines 83-85), otherwise build the volume-filter chain and invoke ffmpeg
with it (lines 89-130). -/
def edit_media_with_ffmpeg (df : ReviewCsv) : EditOutcome :=
  match schemaOf df.columns with
  | none =>
    .error "Review CSV must contain either (start, end) or (start_seconds, end_seconds) columns."
  | some sc =>
    if df.rows.isEmpty then .noop
    else
      .invoked (audio_filter_string (df.rows.map (fun row => (getCol row sc.1, getCol row sc.2))))

/-- CSV reading of `edit_video` (src/audio_scripts/edit_video.py lines
56-65): the `start_seconds` and `end_seconds` cells of each row are
parsed with the Python float constructor, whose possible failure is
modelled by `Option ℚ`; a row whose parse raises a ValueError is skipped
by the catch-and-continue. -/
def read_ranges (rows : List (Option ℚ × Option ℚ)) : List (ℚ × ℚ) :=
  rows.filterMap (fun r =>
    match r with
    | (some s, some e) => some (s, e)
    | _ => none)

/-- The combined enable expression: one between-predicate per range,
joined by plus signs (src/audio_scripts/edit_video.py line 78); the
Python float rendering is abstracted by the rational numeral rendering. -/
def enable_expr (ranges : List (ℚ × ℚ)) : String :=
  String.intercalate "+"
    (ranges.map (fun r => "between(t," ++ toString r.1 ++ "," ++ toString r.2 ++ ")"))

/-- The boxblur filter graph: the blur strength followed by the quoted
combined enable expression (src/audio_scripts/edit_video.py line 80). -/
def boxblur_filter (blur_strength : ℕ) (ranges : List (ℚ × ℚ)) : String :=
  "boxblur=" ++ toString blur_strength ++ ":1:enable=" ++ sq ++ enable_expr ranges ++ sq

/-- Model of `edit_video` (src/audio_scripts/edit_video.py lines 42-97)
after file existence checks: read the ranges (skipping unparsable rows),
report a no-op when none remain (lines 67-69), otherwise invoke ffmpeg
with the boxblur filter graph (lines 78-94). -/
def edit_video (blur_strength : ℕ) (rows : List (Option ℚ × Option ℚ)) : EditOutcome :=
  let ranges := read_ranges rows
  if ranges.isEmpty then .noop
  else .invoked (boxblur_filter blur_strength ranges)

/-- Modelled from the spec (§4.5): the single boolean-OR time predicate,
`OR over ranges of "t is within [start,end]"`, realized as `between`
terms joined by `+`.  Used to compare the actual filter expressions of
the synthesizers against the form given by the spec. -/
def spec_or_predicate (terms : List String) : String :=
  String.intercalate "+" terms

/- ## Helper lemmas about the visual merger -/

/-- The merge loop always returns a nonempty list whose head range starts
at the carried `start`, with the running end only growing and the label
set only gaining members. -/
theorem mergeLoop_head (gap : ℚ) (xs : List (ℚ × String)) :
    ∀ (s e : ℚ) (ls : Finset String), sortedFrom e xs = true →
      ∃ e2 ls2 tail,
        mergeLoop gap s e ls xs = ⟨s, e2, ls2⟩ :: tail ∧ e ≤ e2 ∧ ls ⊆ ls2 := by
  induction xs with
  | nil =>
    intro s e ls _
    exact ⟨e, ls, [], rfl, le_refl e, Finset.Subset.refl ls⟩
  | cons d rest ih =>
    intro s e ls h
    simp only [sortedFrom, Bool.and_eq_true, decide_eq_true_eq] at h
    by_cases hd : d.1 - e ≤ gap
    · obtain ⟨e2, ls2, tail, heq, hle, hsub⟩ := ih s d.1 (insert d.2 ls) h.2
      refine ⟨e2, ls2, tail, ?_, h.1.trans hle, (Finset.subset_insert _ _).trans hsub⟩
      simp only [mergeLoop]
      rw [if_pos hd, heq]
    · exact ⟨e, ls, mergeLoop gap d.1 d.1 {d.2} rest,
        by rw [mergeLoop, if_neg hd], le_refl e, Finset.Subset.refl ls⟩

/-- Adjacent ranges produced by the merge loop are separated by more than
the adjacency gap. -/
theorem mergeLoop_chain (gap : ℚ) (xs : List (ℚ × String)) :
    ∀ (s e : ℚ) (ls : Finset String), sortedFrom e xs = true →
      List.Chain' (fun r1 r2 : VRange => r1.end_ + gap < r2.start)
        (mergeLoop gap s e ls xs) := by
  induction xs with
  | nil =>
    intro s e ls _
    simp only [mergeLoop]
    exact List.chain'_singleton _
  | cons d rest ih =>
    intro s e ls h
    simp only [sortedFrom, Bool.and_eq_true, decide_eq_true_eq] at h
    by_cases hd : d.1 - e ≤ gap
    · simp only [mergeLoop]
      rw [if_pos hd]
      exact ih s d.1 (insert d.2 ls) h.2
    · simp only [mergeLoop]
      rw [if_neg hd]
      obtain ⟨e2, ls2, tail, heq, _, _⟩ := mergeLoop_head gap rest d.1 d.1 {d.2} h.2
      rw [heq, List.chain'_cons]
      refine ⟨?_, ?_⟩
      · show e + gap < d.1
        linarith [not_le.mp hd]
      · rw [← heq]
        exact ih d.1 d.1 {d.2} h.2

/-- Behaviour of the merge loop on its first detection `b`: within the gap
it joins the running range (which then covers `b` and both label sets);
beyond the gap the running range is closed as-is and a fresh range starting
at the timestamp of `b` follows it. -/
theorem mergeLoop_core (gap : ℚ) (s e : ℚ) (ls : Finset String) (b : ℚ × String)
    (suf : List (ℚ × String)) (h : sortedFrom e (b :: suf) = true) :
    (b.1 - e ≤ gap →
      ∃ r ∈ mergeLoop gap s e ls (b :: suf),
        r.start = s ∧ b.1 ≤ r.end_ ∧ ls ⊆ r.labels ∧ b.2 ∈ r.labels) ∧
    (gap < b.1 - e →
      ∃ r2 tail, mergeLoop gap s e ls (b :: suf) = ⟨s, e, ls⟩ :: r2 :: tail ∧
        r2.start = b.1) := by
  simp only [sortedFrom, Bool.and_eq_true, decide_eq_true_eq] at h
  constructor
  · intro hb
    simp only [mergeLoop]
    rw [if_pos hb]
    obtain ⟨e2, ls2, tail, heq, hle, hsub⟩ := mergeLoop_head gap suf s b.1 (insert b.2 ls) h.2
    rw [heq]
    exact ⟨⟨s, e2, ls2⟩, List.mem_cons_self _ _, rfl, hle,
      (Finset.subset_insert _ _).trans hsub, hsub (Finset.mem_insert_self _ _)⟩
  · intro hb
    have hnb : ¬ (b.1 - e ≤ gap) := by linarith
    simp only [mergeLoop]
    rw [if_neg hnb]
    obtain ⟨e2, ls2, tail, heq, _, _⟩ := mergeLoop_head gap suf b.1 b.1 {b.2} h.2
    rw [heq]
    exact ⟨⟨b.1, e2, ls2⟩, tail, rfl, rfl⟩

/-- The pairwise adjacency behaviour of the merge loop for two consecutive
detections `a`, `b` occurring anywhere after a processed prefix. -/
theorem mergeLoop_pair (gap : ℚ) (a b : ℚ × String)
    (suf pre : List (ℚ × String)) :
    ∀ (s e : ℚ) (ls : Finset String), s ≤ e →
      sortedFrom e (pre ++ a :: b :: suf) = true →
      ((b.1 - a.1 ≤ gap →
        ∃ r ∈ mergeLoop gap s e ls (pre ++ a :: b :: suf),
          r.start ≤ a.1 ∧ b.1 ≤ r.end_ ∧ a.2 ∈ r.labels ∧ b.2 ∈ r.labels) ∧
      (gap < b.1 - a.1 →
        ∃ l1 r1 r2 l2,
          mergeLoop gap s e ls (pre ++ a :: b :: suf) = l1 ++ r1 :: r2 :: l2 ∧
            r1.end_ = a.1 ∧ r2.start = b.1)) := by
  induction pre with
  | nil =>
    intro s e ls hse h
    simp only [List.nil_append] at h ⊢
    have hsort : e ≤ a.1 ∧ sortedFrom a.1 (b :: suf) = true := by
      simpa only [sortedFrom, Bool.and_eq_true, decide_eq_true_eq] using h
    by_cases ha : a.1 - e ≤ gap
    · have hstep : mergeLoop gap s e ls (a :: b :: suf) =
          mergeLoop gap s a.1 (insert a.2 ls) (b :: suf) := by
        rw [mergeLoop, if_pos ha]
      have core := mergeLoop_core gap s a.1 (insert a.2 ls) b suf hsort.2
      constructor
      · intro hb
        obtain ⟨r, hr, hrs, hre, hsub, hb2⟩ := core.1 hb
        refine ⟨r, ?_, ?_, hre, hsub (Finset.mem_insert_self _ _), hb2⟩
        · rw [hstep]; exact hr
        · rw [hrs]; exact hse.trans hsort.1
      · intro hb
        obtain ⟨r2, tail, heq, hr2⟩ := core.2 hb
        refine ⟨[], ⟨s, a.1, insert a.2 ls⟩, r2, tail, ?_, rfl, hr2⟩
        rw [hstep, heq, List.nil_append]
    · have hstep : mergeLoop gap s e ls (a :: b :: suf) =
          ⟨s, e, ls⟩ :: mergeLoop gap a.1 a.1 {a.2} (b :: suf) := by
        rw [mergeLoop, if_neg ha]
      have core := mergeLoop_core gap a.1 a.1 {a.2} b suf hsort.2
      constructor
      · intro hb
        obtain ⟨r, hr, hrs, hre, hsub, hb2⟩ := core.1 hb
        refine ⟨r, ?_, le_of_eq hrs, hre, Finset.singleton_subset_iff.mp hsub, hb2⟩
        rw [hstep]
        exact List.mem_cons_of_mem _ hr
      · intro hb
        obtain ⟨r2, tail, heq, hr2⟩ := core.2 hb
        refine ⟨[⟨s, e, ls⟩], ⟨a.1, a.1, {a.2}⟩, r2, tail, ?_, rfl, hr2⟩
        rw [hstep, heq]
        rfl
  | cons p pre' ih =>
    intro s e ls hse h
    simp only [List.cons_append] at h ⊢
    have hsort : e ≤ p.1 ∧ sortedFrom p.1 (pre' ++ a :: b :: suf) = true := by
      simpa only [sortedFrom, Bool.and_eq_true, decide_eq_true_eq] using h
    by_cases hp : p.1 - e ≤ gap
    · have hstep : mergeLoop gap s e ls (p :: (pre' ++ a :: b :: suf)) =
          mergeLoop gap s p.1 (insert p.2 ls) (pre' ++ a :: b :: suf) := by
        rw [mergeLoop, if_pos hp]
      have step := ih s p.1 (insert p.2 ls) (hse.trans hsort.1) hsort.2
      constructor
      · intro hb
        obtain ⟨r, hr, h1, h2, h3, h4⟩ := step.1 hb
        refine ⟨r, ?_, h1, h2, h3, h4⟩
        rw [hstep]
        exact hr
      · intro hb
        obtain ⟨l1, r1, r2, l2, heq, he1, he2⟩ := step.2 hb
        exact ⟨l1, r1, r2, l2, by rw [hstep, heq], he1, he2⟩
    · have hstep : mergeLoop gap s e ls (p :: (pre' ++ a :: b :: suf)) =
          ⟨s, e, ls⟩ :: mergeLoop gap p.1 p.1 {p.2} (pre' ++ a :: b :: suf) := by
        rw [mergeLoop, if_neg hp]
      have step := ih p.1 p.1 {p.2} (le_refl p.1) hsort.2
      constructor
      · intro hb
        obtain ⟨r, hr, h1, h2, h3, h4⟩ := step.1 hb
        refine ⟨r, ?_, h1, h2, h3, h4⟩
        rw [hstep]
        exact List.mem_cons_of_mem _ hr
      · intro hb
        obtain ⟨l1, r1, r2, l2, heq, he1, he2⟩ := step.2 hb
        refine ⟨⟨s, e, ls⟩ :: l1, r1, r2, l2, ?_, he1, he2⟩
        rw [hstep, heq]
        rfl

/- ## Claim C2 -/

/-- C2: for any two consecutive accepted visual detections `a`, `b` of a
timestamp-sorted detection list, if the timestamp of `b` is within
`1.5 * frame_interval` of the running range end (which at that point is
the timestamp of `a`) the merger keeps both in one RedactionRange whose label
set contains both labels; if the gap exceeds `1.5 * frame_interval` it
closes the current range at the timestamp of `a` and starts a new one at
the timestamp of `b`, so the two detections land in different (adjacent, disjoint)
ranges. -/
theorem visual_merge_adjacency_c2 (I : ℚ) (pre suf : List (ℚ × String)) (a b : ℚ × String)
    (hI : 0 ≤ I) (hs : detsSorted (pre ++ a :: b :: suf) = true) :
    (b.1 - a.1 ≤ I * 1.5 →
      ∃ r ∈ analyze_video_ranges I (pre ++ a :: b :: suf),
        r.start ≤ a.1 ∧ b.1 ≤ r.end_ ∧ a.2 ∈ r.labels ∧ b.2 ∈ r.labels) ∧
    (I * 1.5 < b.1 - a.1 →
      ∃ l1 r1 r2 l2,
        analyze_video_ranges I (pre ++ a :: b :: suf) = l1 ++ r1 :: r2 :: l2 ∧
          r1.end_ = a.1 ∧ r2.start = b.1 ∧ r1.end_ < r2.start) := by
  have hg : 0 ≤ I * 1.5 := by nlinarith
  cases pre with
  | nil =>
    have hs' : sortedFrom a.1 (b :: suf) = true := by
      simpa [detsSorted] using hs
    have core := mergeLoop_core (I * 1.5) a.1 a.1 {a.2} b suf hs'
    have hdef : analyze_video_ranges I ([] ++ a :: b :: suf) =
        mergeLoop (I * 1.5) a.1 a.1 {a.2} (b :: suf) := by
      rw [List.nil_append, analyze_video_ranges]
    constructor
    · intro hb
      obtain ⟨r, hr, hrs, hre, hsub, hb2⟩ := core.1 hb
      exact ⟨r, by rw [hdef]; exact hr, le_of_eq hrs, hre,
        Finset.singleton_subset_iff.mp hsub, hb2⟩
    · intro hb
      obtain ⟨r2, tail, heq, hr2⟩ := core.2 hb
      refine ⟨[], ⟨a.1, a.1, {a.2}⟩, r2, tail, ?_, rfl, hr2, ?_⟩
      · rw [hdef, heq, List.nil_append]
      · show (⟨a.1, a.1, {a.2}⟩ : VRange).end_ < r2.start
        rw [hr2]
        show a.1 < b.1
        linarith
  | cons p pre' =>
    have hs' : sortedFrom p.1 (pre' ++ a :: b :: suf) = true := by
      simpa [detsSorted] using hs
    have hdef : analyze_video_ranges I ((p :: pre') ++ a :: b :: suf) =
        mergeLoop (I * 1.5) p.1 p.1 {p.2} (pre' ++ a :: b :: suf) := by
      rw [List.cons_append, analyze_video_ranges]
    have main := mergeLoop_pair (I * 1.5) a b suf pre' p.1 p.1 {p.2} (le_refl p.1) hs'
    constructor
    · intro hb
      obtain ⟨r, hr, h1, h2, h3, h4⟩ := main.1 hb
      exact ⟨r, by rw [hdef]; exact hr, h1, h2, h3, h4⟩
    · intro hb
      obtain ⟨l1, r1, r2, l2, heq, he1, he2⟩ := main.2 hb
      refine ⟨l1, r1, r2, l2, by rw [hdef, heq], he1, he2, ?_⟩
      rw [he1, he2]
      linarith

/-- Witness for C2 at the inputs of Scenario C: detections at 1.0 s and
1.0 + 1.4 s with `frame_interval = 1.0` are merged into one range. -/
theorem visual_merge_adjacency_c2_witness :
    ∃ r ∈ analyze_video_ranges 1 [((1 : ℚ), "A"), ((2.4 : ℚ), "B")],
      r.start ≤ 1 ∧ (2.4 : ℚ) ≤ r.end_ ∧ "A" ∈ r.labels ∧ "B" ∈ r.labels := by
  have hsorted : detsSorted ([] ++ ((1 : ℚ), "A") :: ((2.4 : ℚ), "B") :: []) = true := by
    simp only [List.nil_append, detsSorted, sortedFrom, Bool.and_eq_true, decide_eq_true_eq]
    norm_num
  have h :=
    (visual_merge_adjacency_c2 1 [] [] (1, "A") (2.4, "B") (by norm_num) hsorted).1
      (by norm_num)
  simpa using h

/- ## Claim C3 -/

/-- C3 (amended): whenever the adjacency gap `1.5 * frame_interval` is at
least 1 s — twice the 0.5 s safety buffer, satisfied in particular by the
default `frame_interval = 1.0` — every pair of adjacent written
RedactionRanges of the buffered visual output satisfies `e_i < s_(i+1)`,
i.e. the buffered ranges are pairwise disjoint and sorted ascending.  (As
stated over arbitrary `frame_interval` the claim is false; see the
counterexample below.) -/
theorem buffered_disjoint_c3 (I duration : ℚ) (dets : List (ℚ × String))
    (hI : 1 ≤ I * 1.5) (hs : detsSorted dets = true) :
    List.Chain' (fun p q : ℚ × ℚ × String => p.2.1 < q.1)
      (bufferRanges duration (analyze_video_ranges I dets)) := by
  cases dets with
  | nil => simp [analyze_video_ranges, bufferRanges]
  | cons d rest =>
    have hs' : sortedFrom d.1 rest = true := by simpa [detsSorted] using hs
    have hchain := mergeLoop_chain (I * 1.5) rest d.1 d.1 {d.2} hs'
    have hdef : analyze_video_ranges I (d :: rest) =
        mergeLoop (I * 1.5) d.1 d.1 {d.2} rest := by
      rw [analyze_video_ranges]
    rw [hdef, bufferRanges, List.chain'_map]
    refine hchain.imp ?_
    intro r1 r2 hrel
    show min duration (r1.end_ + 0.5) < max 0 (r2.start - 0.5)
    have h1 : min duration (r1.end_ + 0.5) ≤ r1.end_ + 0.5 := min_le_right _ _
    have h2 : r2.start - 0.5 ≤ max 0 (r2.start - 0.5) := le_max_right _ _
    have h3 : r1.end_ + 0.5 < r2.start - 0.5 := by linarith
    linarith

/-- Counterexample to C3 as stated: with `frame_interval = 1/10`,
detections at 0 s and 1/5 s (gap 0.2 > 0.15 = adjacency gap) produce two
ranges whose buffered forms `[0, 0.5]` and `[0, 0.7]` overlap, violating
`e_i < s_(i+1)`. -/
theorem buffered_disjoint_c3_counterexample :
    ¬ List.Chain' (fun p q : ℚ × ℚ × String => p.2.1 < q.1)
      (bufferRanges 10 (analyze_video_ranges (1/10) [(0, "A"), (1/5, "B")])) := by
  have h1 : ¬ ((1 : ℚ)/5 - 0 ≤ 1/10 * 1.5) := by norm_num
  have hdef : analyze_video_ranges (1/10) [((0 : ℚ), "A"), ((1/5 : ℚ), "B")] =
      [⟨0, 0, {"A"}⟩, ⟨1/5, 1/5, {"B"}⟩] := by
    rw [analyze_video_ranges, mergeLoop, if_neg h1, mergeLoop]
  rw [hdef, bufferRanges]
  simp only [List.map_cons, List.map_nil, List.chain'_cons, List.chain'_singleton, and_true]
  intro hlt
  norm_num at hlt

/-- Witness for the amended C3 at the default `frame_interval = 1`. -/
theorem buffered_disjoint_c3_witness :
    List.Chain' (fun p q : ℚ × ℚ × String => p.2.1 < q.1)
      (bufferRanges 100 (analyze_video_ranges 1 [(1, "A"), (3, "B")])) := by
  have hsorted : detsSorted [((1 : ℚ), "A"), ((3 : ℚ), "B")] = true := by decide
  exact buffered_disjoint_c3 1 100 [(1, "A"), (3, "B")] (by norm_num) hsorted

/- ## Claim C1 -/

/-- C1: for every chunk index `i < N` and every detection of chunk `i`
with chunk-local times, the pipeline emits the detection with global times
equal to the local times plus `i * 1800`; for total duration `D` it
processes exactly `N = floor(D / 1800) + 1` chunks, chunk `i` starting at
offset `i * 1800`. -/
theorem chunk_rebase_c1 (D : ℚ) (transcribe : ℕ → List LocalWord) (i : ℕ) (w : LocalWord)
    (hD : 0 ≤ D) (hi : i < total_chunks D) (hw : w ∈ transcribe i) :
    rebase i w ∈ process_chunks D transcribe ∧
    (rebase i w).start = w.start + i * 1800 ∧
    (rebase i w).end_ = w.end_ + i * 1800 ∧
    chunk_offset i = i * 1800 ∧
    (total_chunks D : ℤ) = ⌊D / 1800⌋ + 1 := by
  have hoff : chunk_offset i = i * 1800 := by
    rw [chunk_offset, CHUNK_DURATION]
    norm_num
  refine ⟨?_, ?_, ?_, hoff, ?_⟩
  · simp only [process_chunks, List.mem_flatMap]
    exact ⟨i, List.mem_range.mpr hi, List.mem_map_of_mem _ hw⟩
  · rw [rebase, hoff]
  · rw [rebase, hoff]
  · have hC : CHUNK_DURATION = 1800 := by rw [CHUNK_DURATION]; norm_num
    have h0 : (0 : ℤ) ≤ ⌊D / (1800 : ℚ)⌋ := by
      apply Int.floor_nonneg.mpr
      apply div_nonneg hD
      norm_num
    rw [total_chunks, hC]
    push_cast
    rw [Int.toNat_of_nonneg h0]

/-- Witness for C1: a 3600 s file is split into 3 chunks; a word spanning
seconds 1-2 of chunk 1 is emitted with global span 1801-1802. -/
theorem chunk_rebase_c1_witness :
    rebase 1 ⟨1, 2⟩ ∈ process_chunks 3600 (fun _ => [⟨1, 2⟩]) ∧
    (rebase 1 ⟨1, 2⟩).start = 1 + 1 * 1800 ∧
    total_chunks 3600 = 3 := by
  have hN : total_chunks 3600 = 3 := by
    rw [total_chunks, CHUNK_DURATION]
    norm_num
    decide
  have h := chunk_rebase_c1 3600 (fun _ => [⟨1, 2⟩]) 1 ⟨1, 2⟩ (by norm_num)
    (by rw [hN]; norm_num) (List.mem_singleton.mpr rfl)
  exact ⟨h.1, h.2.1, hN⟩

/- ## Claim C9 -/

/-- C9: for every nonnegative number of seconds `s`, `format_time s`
renders an `HH:MM:SS` string whose three fields decompose the truncated
total seconds as `3600*h + 60*m + x` with `m, x < 60` (so the hours field
is unbounded rather than reduced modulo 24), the minutes and seconds
fields exactly two digits, and the hours field zero-padded to two digits
when below 10. -/
theorem format_time_c9 (s : ℚ) (hs : 0 ≤ s) :
    ∃ h m x : ℕ,
      format_time s = pad2 (h : ℤ) ++ ":" ++ pad2 (m : ℤ) ++ ":" ++ pad2 (x : ℤ) ∧
      3600 * h + 60 * m + x = (⌊s⌋).toNat ∧ m < 60 ∧ x < 60 ∧
      (pad2 (m : ℤ)).length = 2 ∧ (pad2 (x : ℤ)).length = 2 ∧
      (h < 10 → pad2 (h : ℤ) = "0" ++ toString (h : ℤ)) := by
  have hfloor : (0 : ℤ) ≤ ⌊s⌋ := Int.floor_nonneg.mpr hs
  set t : ℕ := (⌊s⌋).toNat with ht
  have htz : (⌊s⌋ : ℤ) = (t : ℤ) := (Int.toNat_of_nonneg hfloor).symm
  refine ⟨t / 3600, t % 3600 / 60, t % 60, ?_, ?_, ?_, ?_, ?_, ?_, ?_⟩
  · rw [format_time, py_int, if_pos hs, htz]
    have h1 : Int.fdiv (t : ℤ) 3600 = ((t / 3600 : ℕ) : ℤ) := by
      simpa using (Int.ofNat_fdiv t 3600).symm
    have h2 : Int.fmod (t : ℤ) 3600 = ((t % 3600 : ℕ) : ℤ) := by
      simpa using (Int.ofNat_fmod t 3600).symm
    have h3 : Int.fmod (t : ℤ) 60 = ((t % 60 : ℕ) : ℤ) := by
      simpa using (Int.ofNat_fmod t 60).symm
    rw [h1, h2, h3]
    have h4 : Int.fdiv ((t % 3600 : ℕ) : ℤ) 60 = ((t % 3600 / 60 : ℕ) : ℤ) := by
      simpa using (Int.ofNat_fdiv (t % 3600) 60).symm
    rw [h4]
  · omega
  · omega
  · omega
  · have hm : t % 3600 / 60 < 100 := by omega
    revert hm
    have : ∀ n : ℕ, n < 100 → (pad2 (n : ℤ)).length = 2 := by decide
    exact this _
  · have hx : t % 60 < 100 := by omega
    have : ∀ n : ℕ, n < 100 → (pad2 (n : ℤ)).length = 2 := by decide
    exact this _ hx
  · intro hh
    rw [pad2, if_pos]
    constructor
    · positivity
    · exact_mod_cast hh

/-- Witness for C9: the Scenario B rendering `format_time 3665 = "01:01:05"`, plus the
unbounded-hours rendering `format_time 90000 = "25:00:00"`. -/
theorem format_time_c9_witness :
    format_time 3665 = "01:01:05" ∧
    format_time 90000 = "25:00:00" ∧
    ∃ h m x : ℕ,
      format_time 3665 = pad2 (h : ℤ) ++ ":" ++ pad2 (m : ℤ) ++ ":" ++ pad2 (x : ℤ) ∧
      3600 * h + 60 * m + x = (⌊(3665 : ℚ)⌋).toNat ∧ m < 60 ∧ x < 60 ∧
      (pad2 (m : ℤ)).length = 2 ∧ (pad2 (x : ℤ)).length = 2 ∧
      (h < 10 → pad2 (h : ℤ) = "0" ++ toString (h : ℤ)) :=
  ⟨by decide, by decide, format_time_c9 3665 (by norm_num)⟩

/- ## Claim C4 -/

/-- C4: a Review Artifact with recognized columns but zero data rows makes
both synthesizers return the reported no-op outcome: no external engine
invocation (the `invoked` constructor) and no error. -/
theorem empty_artifact_noop_c4 (df : ReviewCsv)
    (hschema : (schemaOf df.columns).isSome = true) (hrows : df.rows = []) :
    edit_media_with_ffmpeg df = EditOutcome.noop ∧
    edit_video 20 [] = EditOutcome.noop := by
  constructor
  · obtain ⟨sc, hsc⟩ := Option.isSome_iff_exists.mp hschema
    rw [edit_media_with_ffmpeg, hsc, hrows]
    rfl
  · rfl

/-- Witness for C4: the real word-schema review file with its header only
(zero data rows). -/
theorem empty_artifact_noop_c4_witness :
    edit_media_with_ffmpeg ⟨["start", "hms_timestamp", "end", "word", "context"], []⟩ =
      EditOutcome.noop ∧
    edit_video 20 [] = EditOutcome.noop :=
  empty_artifact_noop_c4 ⟨["start", "hms_timestamp", "end", "word", "context"], []⟩
    (by decide) rfl

/- ## Claim C5 -/

/-- Counterexample to C5 as stated: the column set `{start, end}` is
neither `{start, end, word, context}` nor
`{start_seconds, end_seconds, labels}`, yet the synthesizer classifies it
as word-schema and proceeds to the engine invocation instead of rejecting
it: the detection is a subset check on `{start, end}` /
`{start_seconds, end_seconds}`, not an exact column-set match. -/
theorem schema_detection_c5_counterexample :
    schemaOf ["start", "end"] = some ("start", "end") ∧
    edit_media_with_ffmpeg ⟨["start", "end"], [[("start", "1.0"), ("end", "2.0")]]⟩ =
      EditOutcome.invoked (volume_gate "1.0" "2.0") := by
  exact ⟨by decide, by decide⟩

/-- C5 (amended): the synthesizer classifies a Review Artifact by column
*subsets*, in order: any column set containing both `start` and `end` is
word-schema (in particular `{start, end, word, context}`); otherwise any
set containing both `start_seconds` and `end_seconds` is range-schema (in
particular `{start_seconds, end_seconds, labels}`); a set containing
neither pair is rejected with a hard error and no edit is attempted. -/
theorem schema_detection_c5 (cols : List String) :
    ("start" ∈ cols → "end" ∈ cols → schemaOf cols = some ("start", "end")) ∧
    ((¬ ("start" ∈ cols ∧ "end" ∈ cols)) → "start_seconds" ∈ cols →
      "end_seconds" ∈ cols → schemaOf cols = some ("start_seconds", "end_seconds")) ∧
    ((¬ ("start" ∈ cols ∧ "end" ∈ cols)) →
      (¬ ("start_seconds" ∈ cols ∧ "end_seconds" ∈ cols)) →
      ∀ rows, edit_media_with_ffmpeg ⟨cols, rows⟩ =
        EditOutcome.error
          "Review CSV must contain either (start, end) or (start_seconds, end_seconds) columns.") := by
  refine ⟨?_, ?_, ?_⟩
  · intro h1 h2
    rw [schemaOf, if_pos ⟨h1, h2⟩]
  · intro h1 h2 h3
    rw [schemaOf, if_neg h1, if_pos ⟨h2, h3⟩]
  · intro h1 h2 rows
    rw [edit_media_with_ffmpeg]
    rw [schemaOf, if_neg h1, if_neg h2]

/-- Witness for the amended C5 on the two schemas named by the spec and on
an unrecognized artifact. -/
theorem schema_detection_c5_witness :
    schemaOf ["start", "end", "word", "context"] = some ("start", "end") ∧
    schemaOf ["start_seconds", "end_seconds", "labels"] =
      some ("start_seconds", "end_seconds") ∧
    edit_media_with_ffmpeg ⟨["foo"], [[("foo", "1")]]⟩ =
      EditOutcome.error
        "Review CSV must contain either (start, end) or (start_seconds, end_seconds) columns." :=
  ⟨(schema_detection_c5 ["start", "end", "word", "context"]).1 (by decide) (by decide),
    (schema_detection_c5 ["start_seconds", "end_seconds", "labels"]).2.1 (by decide)
      (by decide) (by decide),
    (schema_detection_c5 ["foo"]).2.2 (by decide) (by decide) [[("foo", "1")]]⟩

/- ## Claim C7 -/

/-- Counterexample to C7 as stated: for the two audio ranges
`(1.0, 2.0)` and `(3.0, 4.0)` the audio synthesizer emits a comma-joined
chain of two separately gated volume filters, which is not the single
boolean-OR gating expression (a single quoted enable clause holding both
between-predicates joined by a plus sign) that one combined time
predicate would give. -/
theorem or_predicate_c7_counterexample :
    audio_filter_string [("1.0", "2.0"), ("3.0", "4.0")] ≠
      "volume=enable=" ++ sq ++
        spec_or_predicate ["between(t,1.0,2.0)", "between(t,3.0,4.0)"] ++ sq ++
        ":volume=0" := by
  decide

/-- C7 (amended): for every non-empty sequence of ranges the *video*
synthesizer gates the blur filter with one boolean-OR time-predicate
expression (the `between` terms of all ranges joined by `+`, matching the
OR-predicate form of the spec); the *audio* synthesizer instead emits one
volume filter per range, each gated by its own single `between` predicate,
joined into a comma-separated filter chain — not one combined OR
expression. -/
theorem or_predicate_c7 (blur : ℕ) (ranges : List (ℚ × ℚ)) (pairs : List (String × String))
    (h1 : ranges ≠ []) :
    edit_video blur (ranges.map (fun r => (some r.1, some r.2))) =
      EditOutcome.invoked ("boxblur=" ++ toString blur ++ ":1:enable=" ++ sq ++
        spec_or_predicate
          (ranges.map (fun r => "between(t," ++ toString r.1 ++ "," ++ toString r.2 ++ ")")) ++
        sq) ∧
    enable_expr ranges =
      spec_or_predicate
        (ranges.map (fun r => "between(t," ++ toString r.1 ++ "," ++ toString r.2 ++ ")")) ∧
    audio_filter_string pairs =
      String.intercalate "," (pairs.map (fun p => volume_gate p.1 p.2)) := by
  have hread : ∀ rs : List (ℚ × ℚ),
      read_ranges (rs.map (fun r => (some r.1, some r.2))) = rs := by
    intro rs
    induction rs with
    | nil => rfl
    | cons r rest ih =>
      simp only [List.map_cons, read_ranges, List.filterMap_cons] at ih ⊢
      rw [ih]
  refine ⟨?_, rfl, rfl⟩
  rw [edit_video]
  simp only [hread ranges]
  rw [if_neg (by simpa [List.isEmpty_iff] using h1)]
  rfl

/-- Witness for the amended C7 on two concrete ranges. -/
theorem or_predicate_c7_witness :
    edit_video 20 ([((1 : ℚ), (2 : ℚ)), (3, 4)].map (fun r => (some r.1, some r.2))) =
      EditOutcome.invoked ("boxblur=" ++ toString (20 : ℕ) ++ ":1:enable=" ++ sq ++
        spec_or_predicate
          ([((1 : ℚ), (2 : ℚ)), (3, 4)].map
            (fun r => "between(t," ++ toString r.1 ++ "," ++ toString r.2 ++ ")")) ++
        sq) ∧
    audio_filter_string [("1.0", "2.0")] =
      String.intercalate "," ([("1.0", "2.0")].map (fun p => volume_gate p.1 p.2)) := by
  have h := or_predicate_c7 20 [(1, 2), (3, 4)] [("1.0", "2.0")] (by decide)
  exact ⟨h.1, h.2.2⟩

/- ## Claim C10 -/

/-- C10: when the video blur synthesizer reads a range-schema Review
Artifact, any row whose `start_seconds` or `end_seconds` value fails to
parse as a float (modelled by `none`) is silently skipped — the remaining
ranges are exactly those of the artifact without that row — and if no row
parses the run degenerates to the reported no-op path (no engine
invocation, no output file) rather than a malformed-artifact error. -/
theorem skip_unparsable_c10 (pre suf : List (Option ℚ × Option ℚ))
    (bad : Option ℚ × Option ℚ) (blur : ℕ)
    (hbad : bad.1 = none ∨ bad.2 = none) :
    read_ranges (pre ++ bad :: suf) = read_ranges (pre ++ suf) ∧
    (read_ranges (pre ++ bad :: suf) = [] →
      edit_video blur (pre ++ bad :: suf) = EditOutcome.noop) := by
  have hb : read_ranges (bad :: suf) = read_ranges suf := by
    rcases bad with ⟨b1, b2⟩
    rcases hbad with h | h
    · have hb1 : b1 = none := h
      subst hb1
      cases b2 <;> rfl
    · have hb2 : b2 = none := h
      subst hb2
      cases b1 <;> rfl
  constructor
  · rw [read_ranges, read_ranges, List.filterMap_append, List.filterMap_append]
    show read_ranges pre ++ read_ranges (bad :: suf) = read_ranges pre ++ read_ranges suf
    rw [hb]
  · intro h0
    rw [edit_video]
    simp only [h0]
    rfl

/-- Witness for C10: a single unparsable row is skipped and the run is a
no-op. -/
theorem skip_unparsable_c10_witness :
    read_ranges [((none : Option ℚ), some 1)] = read_ranges [] ∧
    (read_ranges [((none : Option ℚ), some 1)] = [] →
      edit_video 20 [((none : Option ℚ), some 1)] = EditOutcome.noop) := by
  have h := skip_unparsable_c10 [] [] ((none : Option ℚ), some 1) 20 (Or.inl rfl)
  simpa using h

/- ## Claim C6 -/

/-- C6: a token is reported as a match exactly when its text, after
whitespace-stripping, lower-casing and leading/trailing punctuation
stripping, is a member of the banned-word set built by lower-casing the
word-list lines (exact membership, not substring matching): a matching
token at index `i` contributes its record, every emitted record comes
from some matching token, and the record carries the original word text
and the start and end times of the token. -/
theorem word_match_c6 (lines : List String) (all_words : List Token) (i : ℕ) (t : Token)
    (ht : all_words[i]? = some t) :
    (normalizeWord t.word ∈ load_banned_words lines →
      mk_found all_words i t ∈ find_matches (load_banned_words lines) all_words) ∧
    (∀ f ∈ find_matches (load_banned_words lines) all_words,
      ∃ j u, all_words[j]? = some u ∧
        normalizeWord u.word ∈ load_banned_words lines ∧
        f = mk_found all_words j u) ∧
    (mk_found all_words i t).word = t.word ∧
    (mk_found all_words i t).start = t.start ∧
    (mk_found all_words i t).end_ = t.end_ := by
  refine ⟨?_, ?_, rfl, rfl, rfl⟩
  · intro hmem
    rw [find_matches]
    apply List.mem_filterMap.mpr
    refine ⟨(i, t), List.mk_mem_enum_iff_getElem?.mpr ht, ?_⟩
    rw [if_pos hmem]
  · intro f hf
    rw [find_matches] at hf
    obtain ⟨⟨j, u⟩, hmem, heq⟩ := List.mem_filterMap.mp hf
    by_cases hju : normalizeWord u.word ∈ load_banned_words lines
    · rw [if_pos hju] at heq
      exact ⟨j, u, List.mk_mem_enum_iff_getElem?.mp hmem, hju,
        (Option.some_injective _ heq).symm⟩
    · rw [if_neg hju] at heq
      exact absurd heq (Option.noConfusion)

/-- Witness for C6: the banned-word line " BadWord " matches the token
"badword!" (case-insensitively, ignoring edge punctuation), and the
emitted record keeps the original text and times. -/
theorem word_match_c6_witness :
    mk_found [⟨"so", 0, 1⟩, ⟨"badword!", 1, 2⟩] 1 ⟨"badword!", 1, 2⟩ ∈
      find_matches (load_banned_words [" BadWord "]) [⟨"so", 0, 1⟩, ⟨"badword!", 1, 2⟩] ∧
    (mk_found [⟨"so", 0, 1⟩, ⟨"badword!", 1, 2⟩] 1 ⟨"badword!", 1, 2⟩).word = "badword!" := by
  have h := word_match_c6 [" BadWord "] [⟨"so", 0, 1⟩, ⟨"badword!", 1, 2⟩] 1
    ⟨"badword!", 1, 2⟩ rfl
  exact ⟨h.1 (by decide), h.2.2.1⟩

/- ## Claim C8 -/

/-- C8: every matched token at index `i` of the full token sequence is
emitted with context equal to the space-joined text of the tokens at
indices `[max 0 (i-5), min N (i+6))` (recorded here with ℕ subtraction,
where `i - 5 = max 0 (i - 5)`), clipped at the sequence boundaries, and
with the original word text. -/
theorem context_window_c8 (banned : List String) (all_words : List Token) (i : ℕ) (t : Token)
    (ht : all_words[i]? = some t) (hm : normalizeWord t.word ∈ banned) :
    ∃ f ∈ find_matches banned all_words,
      f.word = t.word ∧
      f.context = String.intercalate " "
        (((all_words.drop (i - 5)).take (min all_words.length (i + 6) - (i - 5))).map
          Token.word) := by
  refine ⟨mk_found all_words i t, ?_, rfl, rfl⟩
  rw [find_matches]
  apply List.mem_filterMap.mpr
  refine ⟨(i, t), List.mk_mem_enum_iff_getElem?.mpr ht, ?_⟩
  rw [if_pos hm]

/-- Witness for C8 at Scenario A: word list `{"badword"}` and tokens
`[("hello",0,1), ("badword",1,2)]` yield exactly one match, whose context
is `"hello badword"`. -/
theorem context_window_c8_witness :
    (∃ f ∈ find_matches ["badword"] [⟨"hello", 0, 1⟩, ⟨"badword", 1, 2⟩],
      f.word = "badword" ∧ f.context = "hello badword") ∧
    find_matches ["badword"] [⟨"hello", 0, 1⟩, ⟨"badword", 1, 2⟩] =
      [{ start := 1, hms_timestamp := "00:00:01", end_ := 2, word := "badword",
         context := "hello badword" }] := by
  constructor
  · obtain ⟨f, hf, hw, hc⟩ := context_window_c8 ["badword"]
      [⟨"hello", 0, 1⟩, ⟨"badword", 1, 2⟩] 1 ⟨"badword", 1, 2⟩ rfl (by decide)
    refine ⟨f, hf, hw, ?_⟩
    rw [hc]
    decide
  · decide

end AudioAnalysis
